import Mathlib

/-!
Verification development for the qlsbridge repository (Go).

The development shallowly embeds the parts of the source the claims are
about:

* the ranking aggregation engine `getQLStatsPlayerRankings`
  (src/src/qlsbridge.go, lines 156-194), embedded as a small-step
  interleaving semantics: every spawned goroutine is compiled to a list
  of atomic actions on the shared state, and an explicit schedule (a
  list of goroutine indices) picks which goroutine performs its next
  action;
* the query-string helper `getQueryStringVals` and the dispatch part of
  `rankingsHandler` (src/src/handlers.go, lines 67-102 and 120-135),
  which are sequential, embedded as plain functions.

Modelling decisions, each justified against the source:

* Each `mut.Lock() ... mut.Unlock()` block (qlsbridge.go lines 180-184)
  mutates one player and appends it; since the block is a critical
  section it is one atomic `Action.append`.
* `successCount++` (line 186) is NOT under the mutex; a Go increment of
  a plain `int` is a read followed by a write, so it is embedded as two
  atomic actions `Action.readCount` and `Action.writeCount` with a
  goroutine-local register in between.
* The `sync.WaitGroup` is embedded by counting `wg.Done()` calls
  (`Action.done`); `wg.Wait()` returns exactly when the number of Done
  calls equals the number of `wg.Add(1)` calls, i.e. the number of
  addresses.  In the source the error paths of the goroutine (lines
  168-171 and 175-178) return WITHOUT calling `wg.Done()`; the embedded
  per-unit program for a failed fetch is therefore empty (the logging
  has no effect on the shared state) and contains no `done` action.
* The function result is `Option apiRankingResponse`: `some r` when the
  schedule has run and `wg.Wait()` has been released (Done count equals
  the address count), `none` when the call is still blocked in
  `wg.Wait()`.  A `none` for EVERY schedule means the call never
  returns.
* Go slices distinguish `nil` from an empty slice (the source
  deliberately writes `make([]rankedPlayer, 0)`, line 158, with the
  comment "JSON: empty vs. null"); a slice is embedded as
  `Option (List _)` with `none` for the nil slice.
* `strings.Split` with a one-character separator (used with ":" and ",")
  is embedded as `goSplit`; `strings.EqualFold` is embedded as ASCII
  case-insensitive equality `eqFold`, adequate for the ASCII arguments
  the program uses it on.
-/

namespace Qlsbridge

/-- Individual ranked player data decoded from the qlstats players endpoint
(struct `rankedPlayer`, qlsbridge.go lines 75-84).  `Server` and `IP` are
filled in by the bridge inside the aggregation loop. -/
structure rankedPlayer where
  SteamID : String
  Name : String
  Team : Int
  Rating : Int
  Rd : Int
  Time : Int
  Server : String
  IP : String
  deriving DecidableEq, Repr

/-- Nested `ServerInfo` block of the qlstats players payload (qlsbridge.go
lines 50-63).  `MapStart` can be a string or an int in the upstream API and
is embedded as a sum; the aggregation engine decodes this block but never
reads it. -/
structure serverInfo where
  Server : String
  IP : String
  Gt : String
  Min : Int
  Avg : Int
  Max : Int
  Pc : Int
  Sc : Int
  Bc : Int
  Rating : String
  Map : String
  MapStart : String ⊕ Int
  deriving DecidableEq, Repr

/-- Ranking data returned by the qlstats players endpoint (struct
`qlStatPlayers`, qlsbridge.go lines 47-64). -/
structure qlStatPlayers where
  Ok : Bool
  Players : List rankedPlayer
  ServerInfo : serverInfo
  deriving DecidableEq, Repr

/-- Response of the ranking endpoints (struct `apiRankingResponse`,
qlsbridge.go lines 67-71).  `RankedPlayers` is a Go slice: `none` embeds
the nil slice (which serializes to JSON null), `some l` a non-nil slice. -/
structure apiRankingResponse where
  RankedServerCount : Nat
  RankedPlayerCount : Nat
  RankedPlayers : Option (List rankedPlayer)
  deriving DecidableEq, Repr

/-- Outcome of the single upstream fetch one goroutine performs for its
address: the `http.Get` fails (qlsbridge.go line 168), the JSON decode
fails (line 175), or a payload is decoded. -/
inductive FetchOutcome where
  | netError
  | decodeError
  | success (qp : qlStatPlayers)
  deriving DecidableEq, Repr

/-- Go `append` on a slice embedded as `Option (List _)`: appending to a
nil slice yields a non-nil one-element slice. -/
def goAppend (s : Option (List rankedPlayer)) (p : rankedPlayer) :
    Option (List rankedPlayer) :=
  some (s.getD [] ++ [p])

/-- Go `len` of a slice embedded as `Option (List _)`: `len(nil) = 0`. -/
def goLen (s : Option (List rankedPlayer)) : Nat := (s.getD []).length

/-- Splits a character list at every occurrence of `c`, Go
`strings.Split` semantics for a one-character separator: the result is
never empty and splitting the empty string yields one empty field. -/
def splitOnChar (c : Char) : List Char → List (List Char)
  | [] => [[]]
  | a :: rest =>
    let r := splitOnChar c rest
    if a = c then [] :: r
    else (a :: r.headD []) :: r.tail

/-- Go `strings.Split(s, sep)` for the one-character separators ":" and
"," used by the program. -/
def goSplit (s : String) (c : Char) : List String :=
  (splitOnChar c s.toList).map List.asString

/-- The per-player mutation done inside the critical section
(qlsbridge.go lines 181-182): `p.Server = addr` and
`p.IP = strings.Split(addr, ":")[0]`. -/
def tagPlayer (addr : String) (p : rankedPlayer) : rankedPlayer :=
  { p with Server := addr, IP := (goSplit addr ':').headD "" }

/-- One atomic action of a goroutine on the shared state of
`getQLStatsPlayerRankings`:

* `append p` — one full `mut.Lock(); ...; append(...); mut.Unlock()`
  critical section (lines 180-184), atomic because it is guarded;
* `readCount` / `writeCount` — the two halves of the UNguarded
  `successCount++` (line 186);
* `done` — `wg.Done()` (line 187). -/
inductive Action where
  | append (p : rankedPlayer)
  | readCount
  | writeCount
  | done
  deriving DecidableEq, Repr

/-- Shared state of one `getQLStatsPlayerRankings` call plus the
goroutine-local registers holding the value read by `readCount`. -/
structure EngState where
  players : Option (List rankedPlayer)
  successCount : Nat
  doneCount : Nat
  regs : List (Option Nat)
  deriving Repr

/-- Effect of one atomic action performed by goroutine `g`. -/
def execAction (g : Nat) (a : Action) (s : EngState) : EngState :=
  match a with
  | .append p => { s with players := goAppend s.players p }
  | .readCount => { s with regs := s.regs.set g (some s.successCount) }
  | .writeCount => { s with successCount := ((s.regs.getD g none).getD 0) + 1 }
  | .done => { s with doneCount := s.doneCount + 1 }

/-- The goroutine body of qlsbridge.go lines 165-188 compiled to its
sequence of shared-state actions, given the outcome of its fetch.  Both
error paths (lines 168-171, 175-178) only log and `return`: they touch no
shared state and — faithfully to the source — do NOT perform `wg.Done()`.
On success the goroutine appends each decoded player under the mutex in
payload order, then increments `successCount` (read, then write) outside
the mutex, then calls `wg.Done()`. -/
def unitProgram (addr : String) (o : FetchOutcome) : List Action :=
  match o with
  | .netError => []
  | .decodeError => []
  | .success qp =>
      (qp.Players.map (fun p => Action.append (tagPlayer addr p)))
        ++ [Action.readCount, Action.writeCount, Action.done]

/-- The goroutines spawned by the `for _, s := range servers` loop
(lines 163-189), one per address, paired with that unit's fetch outcome. -/
def unitPrograms (servers : List String) (outcomes : List FetchOutcome) :
    List (List Action) :=
  (servers.zip outcomes).map (fun so => unitProgram so.1 so.2)

/-- State at the start of the call: `RankedPlayers` initialized to the
empty non-nil slice by `make([]rankedPlayer, 0)` (line 158), counters
zero, no register read yet. -/
def initState (n : Nat) : EngState :=
  ⟨some [], 0, 0, List.replicate n none⟩

/-- Runs the goroutines under an explicit schedule: each schedule entry
names the goroutine that performs its next atomic action (entries naming
a finished or nonexistent goroutine are skipped).  Returns the remaining
programs and the final state. -/
def runSched (progs : List (List Action)) (sched : List Nat) (s : EngState) :
    List (List Action) × EngState :=
  match sched with
  | [] => (progs, s)
  | i :: rest =>
    match progs[i]? with
    | some (a :: p) => runSched (progs.set i p) rest (execAction i a s)
    | _ => runSched progs rest s

/-- The aggregation engine `getQLStatsPlayerRankings` (qlsbridge.go lines
156-194) under an explicit interleaving: spawn one unit program per
address, run the schedule, and model `wg.Wait()` (line 190): the call
returns — building the response from `successCount` and the final
collection (lines 191-193) — exactly when the number of `wg.Done()` calls
has reached the number of `wg.Add(1)` calls, i.e. the address count;
otherwise the call is still blocked in `wg.Wait()` (`none`).  The Go
function's error component is always nil (line 193) and is not modelled. -/
def getQLStatsPlayerRankings (servers : List String)
    (outcomes : List FetchOutcome) (sched : List Nat) :
    Option apiRankingResponse :=
  let fin := runSched (unitPrograms servers outcomes) sched
    (initState servers.length)
  if fin.2.doneCount = servers.length then
    some ⟨fin.2.successCount, goLen fin.2.players, fin.2.players⟩
  else
    none

/-- A concrete well-formed payload with an empty player list, used by
several concrete evaluations. -/
def emptyPayload : qlStatPlayers :=
  ⟨true, [], ⟨"", "", "", 0, 0, 0, 0, 0, 0, "", "", Sum.inl ""⟩⟩

/-- Concrete payloads with one player each, for concrete interleaving runs. -/
def payloadA : qlStatPlayers :=
  ⟨true, [⟨"76561100000001", "PlayerA", 1, 1500, 90, 100, "", ""⟩],
    emptyPayload.ServerInfo⟩

/-- Second concrete one-player payload. -/
def payloadB : qlStatPlayers :=
  ⟨true, [⟨"76561100000002", "PlayerB", 2, 1400, 80, 200, "", ""⟩],
    emptyPayload.ServerInfo⟩

/-- Tests whether an action is the `wg.Done()` call. -/
def Action.isDone : Action → Bool
  | .done => true
  | _ => false

/-- Tests whether an action is the write half of `successCount++`. -/
def Action.isWrite : Action → Bool
  | .writeCount => true
  | _ => false

/-- Number of actions of a goroutine program satisfying `f`. -/
def weight (f : Action → Bool) (p : List Action) : Nat :=
  (p.filter f).length

/-- Number of actions satisfying `f` over all goroutine programs. -/
def totalWeight (f : Action → Bool) (progs : List (List Action)) : Nat :=
  (progs.map (weight f)).sum

theorem totalWeight_set (f : Action → Bool) :
    ∀ (progs : List (List Action)) (i : Nat) (l l' : List Action),
      progs[i]? = some l →
      totalWeight f (progs.set i l') + weight f l
        = totalWeight f progs + weight f l' := by
  intro progs
  induction progs with
  | nil => intro i l l' h; simp at h
  | cons p ps ih =>
    intro i l l' h
    cases i with
    | zero =>
      simp at h
      subst h
      simp [totalWeight, List.set]
      omega
    | succ n =>
      simp at h
      have := ih n l l' h
      simp [totalWeight, List.set] at this ⊢
      omega

/-- Conservation of `wg.Done()` calls: the `doneCount` of the state plus
the `done` actions still pending in the remaining programs is invariant
under scheduling. -/
theorem doneCount_runSched :
    ∀ (sched : List Nat) (progs : List (List Action)) (s : EngState),
      (runSched progs sched s).2.doneCount
          + totalWeight Action.isDone (runSched progs sched s).1
        = s.doneCount + totalWeight Action.isDone progs := by
  intro sched
  induction sched with
  | nil => intro progs s; simp [runSched]
  | cons i rest ih =>
    intro progs s
    cases h : progs[i]? with
    | none =>
      have hstep : runSched progs (i :: rest) s = runSched progs rest s := by
        simp [runSched, h]
      rw [hstep]; exact ih progs s
    | some l =>
      cases l with
      | nil =>
        have hstep : runSched progs (i :: rest) s = runSched progs rest s := by
          simp [runSched, h]
        rw [hstep]; exact ih progs s
      | cons a p =>
        have hstep : runSched progs (i :: rest) s
            = runSched (progs.set i p) rest (execAction i a s) := by
          simp [runSched, h]
        rw [hstep]
        have hset := totalWeight_set Action.isDone progs i (a :: p) p h
        have hrun := ih (progs.set i p) (execAction i a s)
        cases a <;>
          simp [execAction, weight, List.filter, Action.isDone] at hset hrun ⊢ <;>
          omega

/-- If the spawned programs contain fewer `wg.Done()` calls than there are
addresses — which happens exactly when at least one fetch fails, since the
error paths skip `wg.Done()` — then `wg.Wait()` can never be released and
the call never returns, under every schedule. -/
theorem blocked_of_totalDones_lt (servers : List String)
    (outcomes : List FetchOutcome) (sched : List Nat)
    (h : totalWeight Action.isDone (unitPrograms servers outcomes)
      < servers.length) :
    getQLStatsPlayerRankings servers outcomes sched = none := by
  have hc := doneCount_runSched sched (unitPrograms servers outcomes)
    (initState servers.length)
  rw [show (initState servers.length).doneCount = 0 from rfl] at hc
  unfold getQLStatsPlayerRankings
  dsimp only
  split
  case isTrue hdone => exfalso; omega
  case isFalse => rfl

/-- C1: the claim says that when K of N fetches fail the aggregate still
returns normally with `rankedServerCount == N−K`.  The code does not: a
goroutine whose fetch fails returns without calling `wg.Done()`
(qlsbridge.go lines 168-171), so with N = 1, K = 1 the `wg.Wait()` barrier
is never released and `getQLStatsPlayerRankings` never returns, under
every interleaving. -/
theorem c1_failed_fetch_blocks_forever (sched : List Nat) :
    getQLStatsPlayerRankings ["10.3.3.1:27960"] [.netError] sched = none :=
  blocked_of_totalDones_lt _ _ _ (by decide)

/-- C3: the claim says the aggregate terminates for every input, waiting
for all units and then returning.  With one succeeding and one failing
fetch the failing goroutine skips `wg.Done()`, only one of the two Done
calls ever happens, and the call stays blocked in `wg.Wait()` forever
under every interleaving — it never returns. -/
theorem c3_failed_unit_starves_wait_barrier (sched : List Nat) :
    getQLStatsPlayerRankings ["10.4.4.1:27960", "10.4.4.2:27960"]
      [.success emptyPayload, .netError] sched = none :=
  blocked_of_totalDones_lt _ _ _ (by decide)

/-- C2: the claim says the append and the `successCount` increment happen
together inside one critical section, so no interleaving loses an update.
In the code `successCount++` (line 186) is outside the mutex; with two
goroutines whose fetches both succeed (empty player lists), the
interleaving read₀ read₁ write₀ write₁ done₀ done₁ loses one increment:
the call returns `rankedServerCount = 1` although both units succeeded. -/
theorem c2_success_counter_unguarded_lost_update :
    getQLStatsPlayerRankings ["10.0.0.1:27960", "10.0.0.2:27960"]
      [.success emptyPayload, .success emptyPayload] [0, 1, 0, 1, 0, 1]
      = some ⟨1, 0, some []⟩ := rfl

/-- C4: the claim says that when all N fetches succeed the result has
`rankedServerCount == N`.  With N = 2 succeeding one-player fetches, the
interleaving that overlaps the two unguarded `successCount++` operations
yields `rankedServerCount = 1` (one increment lost) even though
`rankedPlayerCount = 2` is the correct total. -/
theorem c4_all_success_server_count_can_drop :
    (getQLStatsPlayerRankings ["10.1.1.1:27960", "10.1.1.2:27960"]
        [.success payloadA, .success payloadB] [0, 1, 0, 1, 0, 1, 0, 1]).map
        (fun r => (r.RankedServerCount, r.RankedPlayerCount))
      = some (1, 2) := rfl

/-- C9: the claim says two aggregate calls against identical upstream
state return the same counts.  With identical addresses and identical
(successful) fetch outcomes, a run that serializes the two goroutines
returns `rankedServerCount = 2` while a run that interleaves the two
unguarded increments returns `rankedServerCount = 1`: the counts are
schedule-dependent, not a function of the upstream state. -/
theorem c9_identical_state_interleaving_changes_counts :
    ((getQLStatsPlayerRankings ["10.2.2.1:27960", "10.2.2.2:27960"]
        [.success emptyPayload, .success emptyPayload] [0, 0, 0, 1, 1, 1]).map
        (fun r => r.RankedServerCount) = some 2)
    ∧ ((getQLStatsPlayerRankings ["10.2.2.1:27960", "10.2.2.2:27960"]
        [.success emptyPayload, .success emptyPayload] [1, 0, 1, 0, 0, 1]).map
        (fun r => r.RankedServerCount) = some 1) :=
  ⟨rfl, rfl⟩

/-- C6: with an empty address sequence no goroutine is spawned,
`wg.Wait()` returns immediately, and the call returns zero counts and the
empty non-nil player slice, under every schedule — a no-op, not an
error. -/
theorem c6_empty_input_yields_zero_result (outcomes : List FetchOutcome)
    (sched : List Nat) :
    getQLStatsPlayerRankings [] outcomes sched = some ⟨0, 0, some []⟩ := by
  have h : ∀ (sch : List Nat) (s : EngState), runSched [] sch s = ([], s) := by
    intro sch
    induction sch with
    | nil => intro s; simp [runSched]
    | cons i rest ih => intro s; simp [runSched, ih]
  simp [getQLStatsPlayerRankings, unitPrograms, h, initState, goLen]


/-- Value held in goroutine `g`'s local register (0 if nothing was read
yet; in real runs `writeCount` is always preceded by `readCount`). -/
def regVal (s : EngState) (g : Nat) : Nat := (s.regs.getD g none).getD 0

theorem getD_set_cases (l : List (Option Nat)) (i g : Nat) (v : Option Nat) :
    (l.set i v).getD g none = v ∨ (l.set i v).getD g none = l.getD g none := by
  induction l generalizing i g with
  | nil => right; simp
  | cons x xs ih =>
    cases i with
    | zero =>
      cases g with
      | zero => left; simp [List.set, List.getD]
      | succ m => right; simp [List.set, List.getD]
    | succ n =>
      cases g with
      | zero => right; simp [List.set, List.getD]
      | succ m => simpa [List.set, List.getD] using ih n m

/-- Schedule invariant bounding `successCount`: the counter plus the
write actions still pending never exceeds the address count, and the same
bound holds for every value sitting in a goroutine register.  Even with
the lost-update race, `successCount` can only ever reach the number of
spawned units. -/
def CountInv (n : Nat) (progs : List (List Action)) (s : EngState) : Prop :=
  s.successCount + totalWeight Action.isWrite progs ≤ n ∧
  ∀ g, regVal s g + totalWeight Action.isWrite progs ≤ n

theorem countInv_step (n : Nat) (progs : List (List Action)) (i : Nat)
    (a : Action) (p : List Action) (s : EngState)
    (h : progs[i]? = some (a :: p)) (inv : CountInv n progs s) :
    CountInv n (progs.set i p) (execAction i a s) := by
  obtain ⟨h1, h2⟩ := inv
  have hset := totalWeight_set Action.isWrite progs i (a :: p) p h
  cases a with
  | append q =>
    have hw : weight Action.isWrite (Action.append q :: p)
        = weight Action.isWrite p := by
      simp [weight, List.filter_cons, Action.isWrite]
    refine ⟨?_, fun g => ?_⟩
    · simp only [execAction]
      omega
    · have hg := h2 g
      simp only [execAction, regVal] at hg ⊢
      omega
  | readCount =>
    have hw : weight Action.isWrite (Action.readCount :: p)
        = weight Action.isWrite p := by
      simp [weight, List.filter_cons, Action.isWrite]
    refine ⟨?_, fun g => ?_⟩
    · simp only [execAction]
      omega
    · simp only [execAction, regVal]
      rcases getD_set_cases s.regs i g (some s.successCount) with hcase | hcase
      · rw [hcase]
        simp only [Option.getD_some]
        omega
      · rw [hcase]
        have hg := h2 g
        simp only [regVal] at hg
        omega
  | writeCount =>
    have hw : weight Action.isWrite (Action.writeCount :: p)
        = weight Action.isWrite p + 1 := by
      simp [weight, List.filter_cons, Action.isWrite]
    refine ⟨?_, fun g => ?_⟩
    · have hi := h2 i
      simp only [execAction, regVal] at hi ⊢
      omega
    · have hg := h2 g
      simp only [execAction, regVal] at hg ⊢
      omega
  | done =>
    have hw : weight Action.isWrite (Action.done :: p)
        = weight Action.isWrite p := by
      simp [weight, List.filter_cons, Action.isWrite]
    refine ⟨?_, fun g => ?_⟩
    · simp only [execAction]
      omega
    · have hg := h2 g
      simp only [execAction, regVal] at hg ⊢
      omega

theorem countInv_runSched :
    ∀ (sched : List Nat) (n : Nat) (progs : List (List Action)) (s : EngState),
      CountInv n progs s →
      CountInv n (runSched progs sched s).1 (runSched progs sched s).2 := by
  intro sched
  induction sched with
  | nil => intro n progs s h; simpa [runSched] using h
  | cons i rest ih =>
    intro n progs s h
    cases hp : progs[i]? with
    | none =>
      rw [show runSched progs (i :: rest) s = runSched progs rest s by
        simp [runSched, hp]]
      exact ih n progs s h
    | some l =>
      cases l with
      | nil =>
        rw [show runSched progs (i :: rest) s = runSched progs rest s by
          simp [runSched, hp]]
        exact ih n progs s h
      | cons a p =>
        rw [show runSched progs (i :: rest) s
            = runSched (progs.set i p) rest (execAction i a s) by
          simp [runSched, hp]]
        exact ih n _ _ (countInv_step n progs i a p s hp h)



theorem weight_write_appendList (addr : String) (l : List rankedPlayer) :
    weight Action.isWrite (l.map (fun p => Action.append (tagPlayer addr p)))
      = 0 := by
  induction l with
  | nil => rfl
  | cons q qs ih => simp [weight, List.filter_cons, Action.isWrite] at ih ⊢

theorem weight_write_unitProgram (addr : String) (o : FetchOutcome) :
    weight Action.isWrite (unitProgram addr o) ≤ 1 := by
  cases o with
  | netError => simp [unitProgram, weight]
  | decodeError => simp [unitProgram, weight]
  | success qp =>
    have h := weight_write_appendList addr qp.Players
    simp [unitProgram, weight, List.filter_append, Action.isWrite] at h ⊢

theorem sum_le_length (l : List Nat) (h : ∀ x ∈ l, x ≤ 1) :
    l.sum ≤ l.length := by
  induction l with
  | nil => simp
  | cons x xs ih =>
    simp only [List.sum_cons, List.length_cons]
    have hx := h x (by simp)
    have hxs := ih (fun y hy => h y (by simp [hy]))
    omega

theorem getD_replicate_none (n g : Nat) :
    (List.replicate n (none : Option Nat)).getD g none = none := by
  induction n generalizing g with
  | zero => simp
  | succ m ih =>
    cases g with
    | zero => simp [List.replicate]
    | succ k => simp [List.replicate]

theorem countInv_init (servers : List String) (outcomes : List FetchOutcome) :
    CountInv servers.length (unitPrograms servers outcomes)
      (initState servers.length) := by
  have hW : totalWeight Action.isWrite (unitPrograms servers outcomes)
      ≤ servers.length := by
    have h1 : ∀ x ∈ (unitPrograms servers outcomes).map
        (weight Action.isWrite), x ≤ 1 := by
      intro x hx
      simp only [unitPrograms, List.map_map, List.mem_map] at hx
      obtain ⟨so, _, heq⟩ := hx
      rw [← heq]
      exact weight_write_unitProgram so.1 so.2
    have h2 := sum_le_length _ h1
    have h3 : ((unitPrograms servers outcomes).map
        (weight Action.isWrite)).length ≤ servers.length := by
      simp [unitPrograms]
    calc totalWeight Action.isWrite (unitPrograms servers outcomes)
        = ((unitPrograms servers outcomes).map (weight Action.isWrite)).sum := rfl
      _ ≤ _ := h2
      _ ≤ _ := h3
  refine ⟨by simpa [initState] using hW, fun g => ?_⟩
  have hz : regVal (initState servers.length) g = 0 := by
    simp [regVal, initState, getD_replicate_none]
  rw [hz]
  omega

theorem playersSome_exec (i : Nat) (a : Action) (s : EngState)
    (h : s.players.isSome = true) :
    (execAction i a s).players.isSome = true := by
  cases a <;> simp [execAction, goAppend] <;> exact h

theorem playersSome_runSched :
    ∀ (sched : List Nat) (progs : List (List Action)) (s : EngState),
      s.players.isSome = true →
      ((runSched progs sched s).2).players.isSome = true := by
  intro sched
  induction sched with
  | nil => intro progs s h; simpa [runSched] using h
  | cons i rest ih =>
    intro progs s h
    cases hp : progs[i]? with
    | none =>
      rw [show runSched progs (i :: rest) s = runSched progs rest s by
        simp [runSched, hp]]
      exact ih progs s h
    | some l =>
      cases l with
      | nil =>
        rw [show runSched progs (i :: rest) s = runSched progs rest s by
          simp [runSched, hp]]
        exact ih progs s h
      | cons a p =>
        rw [show runSched progs (i :: rest) s
            = runSched (progs.set i p) rest (execAction i a s) by
          simp [runSched, hp]]
        exact ih _ _ (playersSome_exec i a s h)

/-- C5: every response actually returned by the aggregate satisfies the
claimed invariants, for every input and every interleaving:
`rankedServerCount` never exceeds the number of requested addresses,
`rankedPlayers` is a non-nil slice (initialized by
`make([]rankedPlayer, 0)` and only ever appended to), and
`rankedPlayerCount` equals its length (it is computed as
`len(rankingResponse.RankedPlayers)` after the barrier). -/
theorem c5_result_invariants (servers : List String)
    (outcomes : List FetchOutcome) (sched : List Nat) (r : apiRankingResponse)
    (hr : getQLStatsPlayerRankings servers outcomes sched = some r) :
    r.RankedServerCount ≤ servers.length ∧
    (∃ l, r.RankedPlayers = some l ∧ r.RankedPlayerCount = l.length) := by
  have hinv := countInv_runSched sched servers.length
    (unitPrograms servers outcomes) (initState servers.length)
    (countInv_init servers outcomes)
  have hsome := playersSome_runSched sched (unitPrograms servers outcomes)
    (initState servers.length) (by simp [initState])
  unfold getQLStatsPlayerRankings at hr
  dsimp only at hr
  split at hr
  case isTrue hc =>
    injection hr with hr
    subst hr
    refine ⟨Nat.le_trans (Nat.le_add_right _ _) hinv.1, ?_⟩
    obtain ⟨l, hl⟩ := Option.isSome_iff_exists.mp hsome
    exact ⟨l, by simp [hl], by simp [goLen, hl]⟩
  case isFalse => simp at hr

/-- Witness for C5 at a concrete input: one address whose fetch succeeds
with an empty player list, run to completion. -/
theorem c5_result_invariants_witness :
    (⟨1, 0, some []⟩ : apiRankingResponse).RankedServerCount
        ≤ (["10.5.5.1:27960"] : List String).length
      ∧ (∃ l, (⟨1, 0, some []⟩ : apiRankingResponse).RankedPlayers = some l
          ∧ (⟨1, 0, some []⟩ : apiRankingResponse).RankedPlayerCount
              = l.length) :=
  c5_result_invariants ["10.5.5.1:27960"] [.success emptyPayload] [0, 0, 0]
    ⟨1, 0, some []⟩ rfl


/-- Sequential execution of a single goroutine's remaining actions. -/
def runSeq (p : List Action) (s : EngState) : EngState :=
  match p with
  | [] => s
  | a :: rest => runSeq rest (execAction 0 a s)

/-- With a single goroutine, every schedule executes a prefix of its
program in program order. -/
theorem runSched_singleton :
    ∀ (sched : List Nat) (p : List Action) (s : EngState),
      ∃ k, runSched [p] sched s = ([p.drop k], runSeq (p.take k) s) := by
  intro sched
  induction sched with
  | nil => intro p s; exact ⟨0, by simp [runSched, runSeq]⟩
  | cons i rest ih =>
    intro p s
    cases i with
    | zero =>
      cases p with
      | nil =>
        have hstep : runSched [([] : List Action)] (0 :: rest) s
            = runSched [[]] rest s := by
          simp [runSched]
        obtain ⟨k, hk⟩ := ih [] s
        exact ⟨k, by rw [hstep, hk]⟩
      | cons a q =>
        have hstep : runSched [a :: q] (0 :: rest) s
            = runSched [q] rest (execAction 0 a s) := by
          simp [runSched]
        obtain ⟨k, hk⟩ := ih q (execAction 0 a s)
        refine ⟨k + 1, ?_⟩
        rw [hstep, hk]
        simp [runSeq, List.drop_succ_cons, List.take_succ_cons]
    | succ j =>
      have hstep : runSched [p] ((j + 1) :: rest) s = runSched [p] rest s := by
        simp [runSched]
      obtain ⟨k, hk⟩ := ih p s
      exact ⟨k, by rw [hstep, hk]⟩

/-- C7: a server answering with a well-formed payload whose player list
is empty takes the success path of the goroutine (no appends, then
`successCount++` and `wg.Done()`), so whenever the aggregate returns for
that single-address input — under any schedule — the server has counted
as a successful fetch: `rankedServerCount = 1`, `rankedPlayerCount = 0`,
empty non-nil player slice. -/
theorem c7_empty_player_list_counts_as_success (addr : String)
    (qp : qlStatPlayers) (hqp : qp.Players = []) (sched : List Nat)
    (r : apiRankingResponse)
    (hr : getQLStatsPlayerRankings [addr] [.success qp] sched = some r) :
    r.RankedServerCount = 1 ∧ r.RankedPlayerCount = 0 ∧
      r.RankedPlayers = some [] := by
  have hprog : unitPrograms [addr] [.success qp]
      = [[Action.readCount, Action.writeCount, Action.done]] := by
    simp [unitPrograms, unitProgram, hqp]
  unfold getQLStatsPlayerRankings at hr
  dsimp only at hr
  rw [hprog] at hr
  obtain ⟨k, hk⟩ := runSched_singleton sched
    [Action.readCount, Action.writeCount, Action.done] (initState 1)
  rw [show (([addr] : List String)).length = 1 from rfl] at hr
  rw [hk] at hr
  rcases k with _ | _ | _ | k
  · simp [runSeq, initState] at hr
  · simp [List.take, runSeq, execAction, initState] at hr
  · simp [List.take, runSeq, execAction, initState] at hr
  · rw [show List.take (k + 1 + 1 + 1)
        [Action.readCount, Action.writeCount, Action.done]
        = [Action.readCount, Action.writeCount, Action.done] by
      simp [List.take]] at hr
    simp only [runSeq, execAction, initState] at hr
    simp [goLen, List.set, List.getD] at hr
    subst hr
    exact ⟨rfl, rfl, rfl⟩

/-- Witness for C7 at a concrete address, payload and schedule. -/
theorem c7_empty_player_list_counts_as_success_witness :
    (⟨1, 0, some []⟩ : apiRankingResponse).RankedServerCount = 1 ∧
    (⟨1, 0, some []⟩ : apiRankingResponse).RankedPlayerCount = 0 ∧
    (⟨1, 0, some []⟩ : apiRankingResponse).RankedPlayers = some [] :=
  c7_empty_player_list_counts_as_success "10.6.6.1:27960" emptyPayload rfl
    [0, 0, 0] ⟨1, 0, some []⟩ rfl


/-- Go `strings.EqualFold` restricted to ASCII simple folding, adequate
for the ASCII keys the program compares ("servers"). -/
def eqFold (a b : String) : Bool :=
  a.toList.map Char.toLower == b.toList.map Char.toLower

/-- `getQueryStringVals` (handlers.go lines 120-135).  The Go map is
embedded as an association list in map-enumeration order (Go map
iteration order is unspecified); the `for k := range m` loop with `break`
takes the FIRST key in that order matching `querystring`
case-insensitively.  `vals` is `strings.Split(m[k][0], ",")`
(`m[k][0]` embedded as `headD ""`; a key of `url.Values` always carries
at least one value).  A nil result is returned when no key matches or
when `vals[0] == ""`. -/
def getQueryStringVals (m : List (String × List String))
    (querystring : String) : Option (List String) :=
  match m.find? (fun kv => eqFold kv.1 querystring) with
  | none => none
  | some kv =>
    let vals := goSplit (kv.2.headD "") ','
    if vals.headD "" = "" then none else some vals

/-- Decision taken by `rankingsHandler` before contacting the engine:
the 404 error response, or dispatch of the parsed addresses to
`getQLStatsPlayerRankings` (the later 500/encode paths are beyond the
claims). -/
inductive RankingsOutcome where
  | notFound
  | dispatch (addrs : List String)
  deriving DecidableEq, Repr

/-- The dispatch logic of `rankingsHandler` (handlers.go lines 67-92).
The first loop inspects only the first key in enumeration order: if it is
not a case-insensitive "servers" the handler answers 404 at once.  Then a
nil `getQueryStringVals` result means 404; each address is passed to
`net.ResolveTCPAddr` — embedded as the oracle `resolve`, returning the
parsed (IP, port) or failure — failures are skipped, and an empty parsed
list means 404. -/
def rankingsHandlerDispatch (query : List (String × List String))
    (resolve : String → Option (String × Nat)) : RankingsOutcome :=
  let firstKeyOk : Bool :=
    match query with
    | [] => true
    | q :: _ => eqFold q.1 "servers"
  if firstKeyOk then
    match getQueryStringVals query "servers" with
    | none => .notFound
    | some addresses =>
      let parsedaddresses := addresses.filterMap
        (fun a => (resolve a).map (fun hp => hp.1 ++ ":" ++ toString hp.2))
      if parsedaddresses.length = 0 then .notFound
      else .dispatch parsedaddresses
  else .notFound


/-- C10 counterexample: the claim reads "some key matches servers
case-insensitively and the first comma-separated element of that key's
first value is non-empty" existentially, but `getQueryStringVals` only
consults the FIRST matching key in enumeration order.  In the map
[("servers", [""]), ("SERVERS", ["1.2.3.4:27960"])] the key "SERVERS"
satisfies the existential condition, yet the function returns nil because
the first matching key "servers" has an empty first element. -/
theorem c10_existential_reading_refuted :
    getQueryStringVals [("servers", [""]), ("SERVERS", ["1.2.3.4:27960"])]
      "servers" = none
    ∧ ∃ kv ∈ [("servers", [""]), ("SERVERS", ["1.2.3.4:27960"])],
        eqFold kv.1 "servers" = true
        ∧ (goSplit (kv.2.headD "") ',').headD "" ≠ "" := by
  refine ⟨by decide, ⟨("SERVERS", ["1.2.3.4:27960"]), by decide, by decide, by decide⟩⟩

/-- C10 amended: `getQueryStringVals` returns a non-nil list exactly when
the FIRST key in enumeration order matching "servers" case-insensitively
has a first value whose first comma-separated element is non-empty; and
consequently a /rankings request whose servers value begins with an empty
element ("servers=" or "servers=,1.2.3.4:27960") is answered with the 404
Not-found error body, whatever the address resolver does. -/
theorem c10_first_match_decides :
    (∀ m : List (String × List String),
       (getQueryStringVals m "servers").isSome = true ↔
         ∃ kv, m.find? (fun x => eqFold x.1 "servers") = some kv ∧
               (goSplit (kv.2.headD "") ',').headD "" ≠ "")
    ∧ (∀ resolve : String → Option (String × Nat),
         rankingsHandlerDispatch [("servers", [""])] resolve
             = RankingsOutcome.notFound
         ∧ rankingsHandlerDispatch [("servers", [",1.2.3.4:27960"])] resolve
             = RankingsOutcome.notFound) := by
  constructor
  · intro m
    unfold getQueryStringVals
    cases h : m.find? (fun x => eqFold x.1 "servers") with
    | none => simp [h]
    | some kv =>
      by_cases hv : (goSplit (kv.2.headD "") ',').headD "" = ""
      · simp [h, hv]
      · simp [h, hv]
  · intro resolve
    constructor
    · rfl
    · rfl

end Qlsbridge
